import Mathlib

/-!
Verification development for the mr-plotter-conf administration tool.

The repository contains three near-duplicate command tables operating on
accounts and tag definitions stored in etcd:
- `src/main.go` (the legacy REPL table `ops`),
- `src/unnamed/part_001` (the newer REPL table `ops`),
- `src/unnamed/part_000` (the `admincli` module, package `cli`).

We embed the pure command logic: the tag-set and path-prefix-set
computations performed between the store read and the conditional store
write, with the backing store modelled as an abstract lookup function
`String -> Except String (Finset String)` and store calls recorded in
explicit traces.  Go `map[string]struct\x7b\x7d` values are modelled as
`Finset String`; the nondeterministic iteration order of a Go map is
modelled by quantifying over the `List String` in which the elements are
visited.  Returning `Except.error` models the command returning (or
printing an error and returning) before the conditional write reaches the
store, so an `.error` result means the stored record is unchanged.
-/

deriving instance DecidableEq for Except

/-- Modelled from the spec: the reserved tag `accounts.PUBLIC_TAG`.  The
`accounts` package is an external import, but `src/main.go` line 176
compares against the literal string. -/
def PUBLIC_TAG : String := "public"

/-- Modelled from the spec: the reserved virtual tag `accounts.ALL_TAG`
denoting universal access (spec section 3, "Reserved tag `all`"). -/
def ALL_TAG : String := "all"

/-- AllTagSymbol from part_000 line 83 (ALL_TAG_SYMBOL in part_001 line 43):
the sentinel printed for universal access. -/
def AllTagSymbol : String := "<ALL STREAMS>"

/-- sliceToSet from part_001 lines 78-84 and part_000 lines 88-94: builds
the set of elements of a list by inserting each element in turn. -/
def sliceToSet (tagSlice : List String) : Finset String :=
  tagSlice.foldl (fun tagSet tag => insert tag tagSet) ∅

/-- tagSliceToSet from main.go lines 76-82: the legacy table's copy of the
same conversion. -/
def tagSliceToSet (tagSlice : List String) : Finset String :=
  tagSlice.foldl (fun tagSet tag => insert tag tagSet) ∅

/-- adduser in part_001 lines 104-105 (and part_000 lines 144-145): the tag
set stored for a newly created account is the given tags with PUBLIC_TAG
inserted. -/
def adduserTagSet (tags : List String) : Finset String :=
  insert PUBLIC_TAG (sliceToSet tags)

/-- adduser in main.go lines 100-101: the legacy table's tag set for a new
account. -/
def mainAdduserTagSet (tags : List String) : Finset String :=
  insert PUBLIC_TAG (tagSliceToSet tags)

/-- grant in part_001 lines 169-173: each requested tag is added to the
account's tag set if absent.  The resulting set is then written back. -/
def grantLoop (tags : Finset String) : List String → Finset String
  | [] => tags
  | tag :: rest => grantLoop (if tag ∈ tags then tags else insert tag tags) rest

/-- addtags in main.go lines 155-159: the legacy table's copy of the grant
loop. -/
def addtagsLoop (tags : Finset String) : List String → Finset String
  | [] => tags
  | tag :: rest => addtagsLoop (if tag ∈ tags then tags else insert tag tags) rest

/-- Error message returned by revoke in part_001 line 192 when the request
names PUBLIC_TAG. -/
def revokePublicMsg : String :=
  "All user accounts are assigned the \"public\" tag\n"

/-- revoke in part_001 lines 190-197 (part_000 lines 252-260 is identical up
to message text): requested tags are processed in order; encountering
PUBLIC_TAG returns an error before the store write, otherwise the tag is
deleted from the account's tag set if present.  An `.ok` result is the tag
set submitted to the conditional store write. -/
def revokeLoop (tags : Finset String) : List String → Except String (Finset String)
  | [] => .ok tags
  | tag :: rest =>
    if tag = PUBLIC_TAG then .error revokePublicMsg
    else revokeLoop (if tag ∈ tags then tags.erase tag else tags) rest

/-- rmtags in main.go lines 175-182: the legacy table's revoke loop skips
PUBLIC_TAG with `continue` instead of aborting, deletes every other
requested tag that is present, and always proceeds to the store write with
the resulting set. -/
def rmtagsLoop (tags : Finset String) : List String → Finset String
  | [] => tags
  | tag :: rest =>
    if tag = PUBLIC_TAG then rmtagsLoop tags rest
    else rmtagsLoop (if tag ∈ tags then tags.erase tag else tags) rest

/-- rmuser in main.go lines 126-132: with other than exactly two tokens the
command prints usage text and issues no delete; otherwise it deletes the
single named account.  The result is the list of account deletes issued to
the store. -/
def mainRmuserDeletes (tokens : List String) : List String :=
  if tokens.length = 2 then tokens.drop 1 else []

/-- rmuser in part_001 lines 131-144: with at least two tokens the command
deletes every named account in order. -/
def replRmuserDeletes (tokens : List String) : List String :=
  if tokens.length < 2 then [] else tokens.drop 1

/-- Error message of rmprefix in part_001 line 335 and part_000 line 430,
returned when a removal would leave the prefix set empty. -/
def rmprefixMsg : String :=
  "Each tag must be assigned at least one prefix (use undeftag or undeftags to fully remove a tag)"

/-- rmprefix in part_001 lines 332-339 and part_000 lines 427-435: requested
path prefixes are processed in order; a prefix present in the set is removed
unless it is the last remaining element, in which case the command errors
before the store write.  An `.ok` result is the prefix set submitted to the
conditional store write. -/
def rmprefixLoop (pfxSet : Finset String) : List String → Except String (Finset String)
  | [] => .ok pfxSet
  | pfx :: rest =>
    if pfx ∈ pfxSet then
      if pfxSet.card = 1 then .error rmprefixMsg
      else rmprefixLoop (pfxSet.erase pfx) rest
    else rmprefixLoop pfxSet rest

/-- Protective message printed by undeftag for ALL_TAG (part_001 line 272,
part_000 line 352). -/
def undeftagProtectMsg : String := "Tag \"all\" cannot be deleted\n"

/-- undeftag in part_001 lines 270-278: for each requested tag name the
protective message is printed when the name is ALL_TAG, but the loop body
then falls through and calls DeleteTagDef unconditionally.  Returns the
printed messages and the trace of tag-definition deletes issued to the
store. -/
def undeftagLoopRepl : List String → List String × List String
  | [] => ([], [])
  | tagname :: rest =>
    let tailRes := undeftagLoopRepl rest
    if tagname = ALL_TAG then
      (undeftagProtectMsg :: tailRes.1, tagname :: tailRes.2)
    else (tailRes.1, tagname :: tailRes.2)

/-- undeftag in part_000 lines 350-359: encountering ALL_TAG prints the
protective message and returns at once, issuing no delete for it; every
other requested tag is deleted in order. -/
def undeftagLoopCli : List String → List String × List String
  | [] => ([], [])
  | tagname :: rest =>
    if tagname = ALL_TAG then ([undeftagProtectMsg], [])
    else
      let tailRes := undeftagLoopCli rest
      (tailRes.1, tagname :: tailRes.2)

/-- TagStore models `accounts.RetrieveTagDef` abstractly: a lookup maps a
tag name to the path-prefix set of its definition, or to an error. -/
abbrev TagStore : Type := String → Except String (Finset String)

/-- lookupCache models the read `tagPfxSet, ok = tagcache[tag]` of part_000
line 541 / part_001 line 434, with the Go map as an association list. -/
def lookupCache (tagcache : List (String × Finset String)) (tag : String) :
    Option (Finset String) :=
  (tagcache.find? (fun p => p.1 = tag)).map Prod.snd

/-- Error text built by ls on a failed tag lookup (part_001 line 437,
part_000 line 544). -/
def lsLookupErrMsg (tag err : String) : String :=
  "Could not retrieve tag information for " ++ tag ++ ": " ++ err

/-- lsTagLoop is the per-account tag loop of ls (part_000 lines 530-552,
part_001 lines 423-444): tags of the account are visited in iteration
order, accumulating the union of their path-prefix sets into `prefixes`.
Visiting ALL_TAG discards the accumulated set, replaces it with the
sentinel, and breaks.  Otherwise the cache is consulted and, on a miss,
RetrieveTagDef is called; the source never inserts into the cache.  Every
store lookup performed is appended to the `lookups` trace; an `.error`
first component models the early return that aborts the listing. -/
def lsTagLoop (store : TagStore) (tagcache : List (String × Finset String)) :
    List String → Finset String → List String →
    Except String (Finset String) × List String
  | [], prefixes, lookups => (.ok prefixes, lookups)
  | tag :: rest, prefixes, lookups =>
    if tag = ALL_TAG then (.ok {AllTagSymbol}, lookups)
    else
      match lookupCache tagcache tag with
      | some tagPfxSet => lsTagLoop store tagcache rest (prefixes ∪ tagPfxSet) lookups
      | none =>
        match store tag with
        | .error e => (.error (lsLookupErrMsg tag e), lookups ++ [tag])
        | .ok tagPfxSet =>
          lsTagLoop store tagcache rest (prefixes ∪ tagPfxSet) (lookups ++ [tag])

/-- LsAccount is an account as seen by the listing commands: a username and
the account's tag set in its Go-map iteration order, or `none` when the
stored record decodes with a nil tag set (a corrupt entry). -/
structure LsAccount where
  Username : String
  Tags : Option (List String)
  deriving DecidableEq

/-- LsOut is one line of ls output, kept at the information level: a corrupt
marker, a resolved entry (username with its effective prefix set), or the
error line printed when a tag lookup fails. -/
inductive LsOut
  | corrupt (username : String)
  | entry (username : String) (prefixes : Finset String)
  | lookupError (msg : String)
  deriving DecidableEq

/-- lsAccountsLoop is the account loop of ls in part_000 lines 525-555:
corrupt entries are reported and the loop continues; otherwise the
account's tags are resolved with `lsTagLoop` and a failed lookup aborts the
whole listing after printing the error line.  The tag cache is passed
through unchanged, exactly as in the source. -/
def lsAccountsLoop (store : TagStore) (tagcache : List (String × Finset String)) :
    List LsAccount → List LsOut → List String → List LsOut × List String
  | [], outs, lookups => (outs, lookups)
  | acc :: rest, outs, lookups =>
    match acc.Tags with
    | none => lsAccountsLoop store tagcache rest (outs ++ [LsOut.corrupt acc.Username]) lookups
    | some tagOrder =>
      match lsTagLoop store tagcache tagOrder ∅ lookups with
      | (.error e, lookups2) => (outs ++ [LsOut.lookupError e], lookups2)
      | (.ok prefixes, lookups2) =>
        lsAccountsLoop store tagcache rest (outs ++ [LsOut.entry acc.Username prefixes]) lookups2

/-- lsRun is one invocation of the ls command of part_000 lines 504-557 over
the accounts returned by the store scan: the tag cache is created empty
once per invocation (line 523) and, since the source never writes to it,
stays empty for the whole run. -/
def lsRun (store : TagStore) (accs : List LsAccount) : List LsOut × List String :=
  lsAccountsLoop store [] accs [] []

/-- MainLsOut is one line of the legacy ls output of main.go: a corrupt
marker or a username with its raw tag set. -/
inductive MainLsOut
  | corrupt (username : String)
  | entry (username : String) (tags : Finset String)
  deriving DecidableEq

/-- mainLsRun is the legacy ls of main.go lines 243-250: it prints each
account's tag set directly and never consults tag definitions, so it
performs no tag-definition store lookups at all. -/
def mainLsRun : List LsAccount → List MainLsOut
  | [] => []
  | acc :: rest =>
    match acc.Tags with
    | none => MainLsOut.corrupt acc.Username :: mainLsRun rest
    | some tagOrder => MainLsOut.entry acc.Username (sliceToSet tagOrder) :: mainLsRun rest

/-- ShowOut is one line of showtagdef output: a resolved tag line or the
sentinel line printed for the reserved tag. -/
inductive ShowOut
  | line (tag : String) (prefixes : Finset String)
  | allLine
  deriving DecidableEq

/-- showtagdefLoop is the loop of showtagdef in part_001 lines 352-364 and
part_000 lines 453-465: the arguments tokens[1:] are processed in order,
but the reserved-tag guard tests `tokens[1]` (the first argument, passed
here as `first`) rather than the loop variable `tagname`; when it fires the
sentinel line is printed and the command returns, ignoring the remaining
arguments.  Otherwise every processed tag, ALL_TAG included, is looked up
in the store; the lookups performed are returned alongside the result. -/
def showtagdefLoop (store : TagStore) (first : String) :
    List String → List ShowOut → List String →
    Except String (List ShowOut) × List String
  | [], outs, lookups => (.ok outs, lookups)
  | tagname :: rest, outs, lookups =>
    if first = ALL_TAG then (.ok (outs ++ [ShowOut.allLine]), lookups)
    else
      match store tagname with
      | .error e => (.error e, lookups ++ [tagname])
      | .ok pfxSet =>
        showtagdefLoop store first rest (outs ++ [ShowOut.line tagname pfxSet]) (lookups ++ [tagname])

/-- storeT is a concrete tag store used in concrete instantiations: the tag
t has the single path prefix /p/ and every other lookup fails. -/
def storeT : TagStore := fun tag => if tag = "t" then .ok {"/p/"} else .error "not found"

/-- storeFail is a concrete tag store whose every lookup fails. -/
def storeFail : TagStore := fun _ => .error "unavailable"

/-- storeConst is a concrete tag store resolving every tag to the prefix
set containing only /p/. -/
def storeConst : TagStore := fun _ => .ok {"/p/"}

/-! Helper lemmas. -/

/-- Membership in a foldl of insertions: an element is in the result when it
is in the inserted list or in the initial set. -/
theorem mem_foldl_insert (l : List String) (acc : Finset String) (x : String) :
    x ∈ l.foldl (fun s t => insert t s) acc ↔ x ∈ l ∨ x ∈ acc := by
  induction l generalizing acc with
  | nil => simp
  | cons t rest ih =>
    simp only [List.foldl_cons, ih, Finset.mem_insert, List.mem_cons]
    tauto

/-- Membership in sliceToSet is membership in the original list. -/
theorem mem_sliceToSet (l : List String) (x : String) :
    x ∈ sliceToSet l ↔ x ∈ l := by
  simp [sliceToSet, mem_foldl_insert]

/-- General form of the all-override of ls: whenever ALL_TAG occurs in the
iteration order and every other tag resolves, the per-account loop returns
the universal sentinel, whatever the accumulators hold. -/
theorem lsTagLoop_all_override (store : TagStore) :
    ∀ (l : List String) (prefixes : Finset String) (lookups : List String),
      ALL_TAG ∈ l →
      (∀ t ∈ l, t ≠ ALL_TAG → ∃ s, store t = .ok s) →
      (lsTagLoop store [] l prefixes lookups).1 = .ok {AllTagSymbol} := by
  intro l
  induction l with
  | nil => intro prefixes lookups hall _; cases hall
  | cons t rest ih =>
    intro prefixes lookups hall hok
    by_cases ht : t = ALL_TAG
    · simp [lsTagLoop, ht]
    · obtain ⟨s, hs⟩ := hok t (List.mem_cons_self t rest) ht
      have hall2 : ALL_TAG ∈ rest := by
        rcases List.mem_cons.mp hall with h | h
        · exact absurd h.symm ht
        · exact h
      have hok2 : ∀ x ∈ rest, x ≠ ALL_TAG → ∃ s, store x = .ok s :=
        fun x hx => hok x (List.mem_cons_of_mem t hx)
      simp [lsTagLoop, ht, lookupCache, hs, ih (prefixes ∪ s) (lookups ++ [t]) hall2 hok2]

/-- General form of the abort-on-error of ls: when ALL_TAG is absent from
the iteration order and some tag's lookup fails, the per-account loop ends
in the error line built from a failing tag. -/
theorem lsTagLoop_error_aborts (store : TagStore) :
    ∀ (l : List String) (prefixes : Finset String) (lookups : List String),
      ALL_TAG ∉ l →
      (∃ t ∈ l, ∃ e, store t = .error e) →
      ∃ t2 e2 lk, t2 ∈ l ∧ store t2 = .error e2 ∧
        lsTagLoop store [] l prefixes lookups = (.error (lsLookupErrMsg t2 e2), lk) := by
  intro l
  induction l with
  | nil => intro _ _ _ hex; simp at hex
  | cons t rest ih =>
    intro prefixes lookups hnall hex
    have ht : t ≠ ALL_TAG := fun h => hnall (h ▸ List.mem_cons_self t rest)
    cases hstore : store t with
    | error e =>
      refine ⟨t, e, lookups ++ [t], List.mem_cons_self t rest, hstore, ?_⟩
      simp [lsTagLoop, ht, lookupCache, hstore]
    | ok s =>
      have hnall2 : ALL_TAG ∉ rest := fun h => hnall (List.mem_cons_of_mem t h)
      have hex2 : ∃ x ∈ rest, ∃ e, store x = .error e := by
        obtain ⟨x, hx, e, he⟩ := hex
        rcases List.mem_cons.mp hx with h | h
        · subst h; rw [hstore] at he; cases he
        · exact ⟨x, h, e, he⟩
      obtain ⟨t2, e2, lk, ht2, he2, hres⟩ := ih (prefixes ∪ s) (lookups ++ [t]) hnall2 hex2
      refine ⟨t2, e2, lk, List.mem_cons_of_mem t ht2, he2, ?_⟩
      simp [lsTagLoop, ht, lookupCache, hstore, hres]

/-- General form of the showtagdef loop when the first argument is not the
reserved tag and every processed tag resolves: each tag is looked up in
order and printed as an ordinary line. -/
theorem showtagdefLoop_all_ok (store : TagStore) (pf : String → Finset String)
    (first : String) (hfirst : first ≠ ALL_TAG) :
    ∀ (l : List String) (outs : List ShowOut) (lookups : List String),
      (∀ t ∈ l, store t = .ok (pf t)) →
      showtagdefLoop store first l outs lookups
        = (.ok (outs ++ l.map (fun t => ShowOut.line t (pf t))), lookups ++ l) := by
  intro l
  induction l with
  | nil => intro outs lookups _; simp [showtagdefLoop]
  | cons t rest ih =>
    intro outs lookups h
    have hst : store t = .ok (pf t) := h t (List.mem_cons_self t rest)
    have hrest : ∀ x ∈ rest, store x = .ok (pf x) :=
      fun x hx => h x (List.mem_cons_of_mem t hx)
    simp [showtagdefLoop, hfirst, hst, ih (outs ++ [ShowOut.line t (pf t)]) (lookups ++ [t]) hrest]

/-! Claim theorems. -/

/-- C1: every stored account's tag set contains the reserved tag public.
The adduser commands store the given tags unioned with the public tag, and
neither revoke (which aborts on public) nor the legacy rmtags (which skips
public) ever removes public from the tag set written back to the store. -/
theorem C1_public_tag_always_present :
    (∀ (tags : List String) (x : String),
        x ∈ adduserTagSet tags ↔ x = PUBLIC_TAG ∨ x ∈ tags) ∧
    (∀ (tags : Finset String) (l : List String) (s : Finset String),
        PUBLIC_TAG ∈ tags → revokeLoop tags l = .ok s → PUBLIC_TAG ∈ s) ∧
    (∀ (tags : Finset String) (l : List String),
        PUBLIC_TAG ∈ tags → PUBLIC_TAG ∈ rmtagsLoop tags l) := by
  refine ⟨?_, ?_, ?_⟩
  · intro tags x
    simp [adduserTagSet, mem_sliceToSet]
  · intro tags l
    induction l generalizing tags with
    | nil =>
      intro s hmem hok
      simp only [revokeLoop] at hok
      cases hok
      exact hmem
    | cons t rest ih =>
      intro s hmem hok
      simp only [revokeLoop] at hok
      by_cases ht : t = PUBLIC_TAG
      · simp [ht] at hok
      · rw [if_neg ht] at hok
        by_cases htm : t ∈ tags
        · rw [if_pos htm] at hok
          exact ih (tags.erase t) s
            (Finset.mem_erase.mpr ⟨fun h => ht h.symm, hmem⟩) hok
        · rw [if_neg htm] at hok
          exact ih tags s hmem hok
  · intro tags l
    induction l generalizing tags with
    | nil => intro hmem; exact hmem
    | cons t rest ih =>
      intro hmem
      by_cases ht : t = PUBLIC_TAG
      · simpa [rmtagsLoop, ht] using ih tags hmem
      · by_cases htm : t ∈ tags
        · simpa [rmtagsLoop, ht, htm] using
            ih (tags.erase t) (Finset.mem_erase.mpr ⟨fun h => ht h.symm, hmem⟩)
        · simpa [rmtagsLoop, ht, htm] using ih tags hmem

/-- Witness for C1 at concrete inputs. -/
theorem C1_witness :
    (PUBLIC_TAG ∈ adduserTagSet ["a"]) ∧
    (PUBLIC_TAG ∈ ({PUBLIC_TAG} : Finset String)) ∧
    (PUBLIC_TAG ∈ rmtagsLoop (insert PUBLIC_TAG {"a"}) ["a"]) :=
  ⟨(C1_public_tag_always_present.1 ["a"] PUBLIC_TAG).mpr (Or.inl rfl),
   C1_public_tag_always_present.2.1 (insert PUBLIC_TAG {"a"}) ["a"] {PUBLIC_TAG}
     (by decide) (by decide),
   C1_public_tag_always_present.2.2 (insert PUBLIC_TAG {"a"}) ["a"] (by decide)⟩

/-- C2: remove-prefix never leaves a stored TagDefinition with an empty
prefix set: when the stored prefix set has exactly one element and the
request names that element, the loop returns the explanatory error before
the conditional write, so nothing is written and the record is unchanged. -/
theorem C2_rmprefix_singleton_rejected (pfxSet : Finset String) (pfx : String)
    (l : List String) (hset : pfxSet = {pfx}) (hmem : pfx ∈ l) :
    rmprefixLoop pfxSet l = .error rmprefixMsg := by
  subst hset
  induction l with
  | nil => cases hmem
  | cons q rest ih =>
    by_cases hq : q ∈ ({pfx} : Finset String)
    · simp [rmprefixLoop, hq]
    · have hne : pfx ≠ q := by
        rintro rfl
        exact hq (Finset.mem_singleton_self pfx)
      have hrest : pfx ∈ rest := by
        rcases List.mem_cons.mp hmem with h | h
        · exact absurd h hne
        · exact h
      simp [rmprefixLoop, hq, ih hrest]

/-- Witness for C2 at concrete inputs. -/
theorem C2_witness : rmprefixLoop {"/p/"} ["/p/"] = .error rmprefixMsg :=
  C2_rmprefix_singleton_rejected {"/p/"} "/p/" ["/p/"] rfl (by decide)

/-- C3: for every account whose tag set includes the reserved tag all
together with arbitrary other tags, permission resolution returns exactly
the universal-access sentinel, whatever prefix sets the other tags resolve
to and in whatever order the tag set is iterated. -/
theorem C3_all_tag_overrides (store : TagStore) (l : List String)
    (hall : ALL_TAG ∈ l)
    (hok : ∀ t ∈ l, t ≠ ALL_TAG → ∃ s, store t = .ok s) :
    (lsTagLoop store [] l ∅ []).1 = .ok {AllTagSymbol} :=
  lsTagLoop_all_override store l ∅ [] hall hok

/-- Witness for C3 at concrete inputs. -/
theorem C3_witness : (lsTagLoop storeConst [] ["t", ALL_TAG] ∅ []).1 = .ok {AllTagSymbol} :=
  C3_all_tag_overrides storeConst ["t", ALL_TAG] (by decide)
    (fun t _ _ => ⟨{"/p/"}, rfl⟩)

/-- C4 counterexample: the claim says the store is never consulted for an
account whose tag set contains the reserved tag all, but when the tag t is
visited before all in the iteration order the code calls RetrieveTagDef for
t: the lookup trace of the run is the nonempty ["t"]. -/
theorem C4_counterexample :
    lsRun storeT [⟨"u", some ["t", ALL_TAG]⟩]
      = ([LsOut.entry "u" {AllTagSymbol}], ["t"]) ∧
    (lsRun storeT [⟨"u", some ["t", ALL_TAG]⟩]).2 ≠ [] := by decide

/-- C4 amended: the all short-circuit is checked per tag during iteration,
not before any retrieval: every tag visited before all incurs one store
lookup (the cache stays empty), and from the moment all is visited no
further lookup occurs and the result is the universal sentinel. -/
theorem C4_amended_short_circuit_at_all (store : TagStore) (pre post : List String)
    (prefixes : Finset String) (lookups : List String)
    (hpre : ALL_TAG ∉ pre)
    (hok : ∀ t ∈ pre, ∃ s, store t = .ok s) :
    lsTagLoop store [] (pre ++ ALL_TAG :: post) prefixes lookups
      = (.ok {AllTagSymbol}, lookups ++ pre) := by
  induction pre generalizing prefixes lookups with
  | nil => simp [lsTagLoop]
  | cons t rest ih =>
    have ht : t ≠ ALL_TAG := fun h => hpre (h ▸ List.mem_cons_self t rest)
    obtain ⟨s, hs⟩ := hok t (List.mem_cons_self t rest)
    have hpre2 : ALL_TAG ∉ rest := fun h => hpre (List.mem_cons_of_mem t h)
    have hok2 : ∀ x ∈ rest, ∃ s2, store x = .ok s2 :=
      fun x hx => hok x (List.mem_cons_of_mem t hx)
    simp [lsTagLoop, ht, lookupCache, hs,
      ih (prefixes ∪ s) (lookups ++ [t]) hpre2 hok2]

/-- Witness for the amended C4 at concrete inputs. -/
theorem C4_witness :
    lsTagLoop storeT [] (["t"] ++ ALL_TAG :: []) ∅ []
      = (.ok {AllTagSymbol}, [] ++ ["t"]) :=
  C4_amended_short_circuit_at_all storeT ["t"] [] ∅ [] (by decide)
    (fun t ht => ⟨{"/p/"}, by
      have : t = "t" := by simpa using ht
      subst this
      decide⟩)

/-- C5: evaluation at the failing input.  The tag cache of ls is created
and consulted but never written, so a bulk listing over two accounts that
both carry the tag t calls RetrieveTagDef for t twice, not at most once as
the claim states. -/
theorem C5_cache_never_populated :
    lsRun storeT [⟨"u1", some ["t"]⟩, ⟨"u2", some ["t"]⟩]
      = ([LsOut.entry "u1" {"/p/"}, LsOut.entry "u2" {"/p/"}], ["t", "t"]) ∧
    (lsRun storeT [⟨"u1", some ["t"]⟩, ⟨"u2", some ["t"]⟩]).2.count "t" = 2 := by decide

/-- C6: if any tag referenced by an account cannot be resolved (and the all
short-circuit does not intervene), permission resolution for that account
aborts with the error line built from a failing tag and its lookup error;
the unresolvable tag is never silently dropped. -/
theorem C6_lookup_error_surfaced (store : TagStore) (l : List String)
    (t e : String) (hnall : ALL_TAG ∉ l) (hmem : t ∈ l)
    (herr : store t = .error e) :
    ∃ t2 e2 lk, t2 ∈ l ∧ store t2 = .error e2 ∧
      lsTagLoop store [] l ∅ [] = (.error (lsLookupErrMsg t2 e2), lk) :=
  lsTagLoop_error_aborts store l ∅ [] hnall ⟨t, hmem, e, herr⟩

/-- Witness for C6 at concrete inputs. -/
theorem C6_witness :
    ∃ t2 e2 lk, t2 ∈ ["t"] ∧ storeFail t2 = .error e2 ∧
      lsTagLoop storeFail [] ["t"] ∅ [] = (.error (lsLookupErrMsg t2 e2), lk) :=
  C6_lookup_error_surfaced storeFail ["t"] "t" "unavailable" (by decide)
    (by decide) rfl

/-- C7 counterexample: the claim covers the legacy rmtags as well, but
rmtags does not reject a request naming public: on the account with tags
public and a, the request [a, public] is not rejected, the tag a is removed
and the resulting set is submitted to the store write. -/
theorem C7_counterexample :
    rmtagsLoop (insert PUBLIC_TAG {"a"}) ["a", PUBLIC_TAG] = {PUBLIC_TAG} ∧
    "a" ∉ rmtagsLoop (insert PUBLIC_TAG {"a"}) ["a", PUBLIC_TAG] := by decide

/-- C7 amended: for the revoke command of the newer tables, any request
naming public (in any position) is rejected with the explanatory error
before the conditional write reaches the store, so no requested tag is
removed from the stored account; the legacy rmtags instead skips public
and commits the remaining removals. -/
theorem C7_amended_revoke_rejects_public (tags : Finset String)
    (l : List String) (hmem : PUBLIC_TAG ∈ l) :
    revokeLoop tags l = .error revokePublicMsg := by
  induction l generalizing tags with
  | nil => cases hmem
  | cons t rest ih =>
    by_cases ht : t = PUBLIC_TAG
    · simp [revokeLoop, ht]
    · have hrest : PUBLIC_TAG ∈ rest := by
        rcases List.mem_cons.mp hmem with h | h
        · exact absurd h.symm ht
        · exact h
      by_cases htm : t ∈ tags
      · simpa [revokeLoop, ht, htm] using ih (tags.erase t) hrest
      · simpa [revokeLoop, ht, htm] using ih tags hrest

/-- Witness for the amended C7 at concrete inputs. -/
theorem C7_witness : revokeLoop {"a"} [PUBLIC_TAG] = .error revokePublicMsg :=
  C7_amended_revoke_rejects_public {"a"} [PUBLIC_TAG] (by decide)

/-- C8: evaluation at the failing input.  On the invocation naming all, the
undeftag of part_001 prints the protective message but still issues the
store delete for the all key (its guard lacks the early return), while the
undeftag of part_000 returns after the message and issues no delete. -/
theorem C8_undeftag_all_still_deleted :
    undeftagLoopRepl [ALL_TAG] = ([undeftagProtectMsg], [ALL_TAG]) ∧
    undeftagLoopCli [ALL_TAG] = ([undeftagProtectMsg], []) := by decide

/-- C9 counterexample: three concrete divergences between the legacy table
of main.go and the newer table.  revoke errors without writing where rmtags
removes the tag b and writes; rmuser with two usernames is a usage no-op in
the legacy table but deletes both accounts in the newer one; and on a store
whose tag lookups fail, the legacy ls lists the account's raw tag set while
the newer ls aborts with a lookup error. -/
theorem C9_counterexample :
    (revokeLoop (insert PUBLIC_TAG {"b"}) ["b", PUBLIC_TAG] = .error revokePublicMsg ∧
     rmtagsLoop (insert PUBLIC_TAG {"b"}) ["b", PUBLIC_TAG] = {PUBLIC_TAG}) ∧
    (mainRmuserDeletes ["rmuser", "x", "y"] = [] ∧
     replRmuserDeletes ["rmuser", "x", "y"] = ["x", "y"]) ∧
    (mainLsRun [⟨"u", some ["t"]⟩] = [MainLsOut.entry "u" {"t"}] ∧
     (lsRun storeFail [⟨"u", some ["t"]⟩]).1
        = [LsOut.lookupError (lsLookupErrMsg "t" "unavailable")]) := by decide

/-- C9 amended: the two tables agree on the core mutation computations -
adduser stores the same tag set, grant and addtags compute the same updated
tag set, and revoke and rmtags compute the same written tag set whenever
the request does not name public - but they are not equivalent in general:
they diverge on revoke/rmtags requests naming public, on rmuser with more
than one username, and on ls, as the counterexample records. -/
theorem C9_amended_core_agreement :
    (∀ l : List String, mainAdduserTagSet l = adduserTagSet l) ∧
    (∀ (tags : Finset String) (l : List String), addtagsLoop tags l = grantLoop tags l) ∧
    (∀ (tags : Finset String) (l : List String), PUBLIC_TAG ∉ l →
        revokeLoop tags l = .ok (rmtagsLoop tags l)) := by
  refine ⟨fun l => rfl, ?_, ?_⟩
  · intro tags l
    induction l generalizing tags with
    | nil => rfl
    | cons t rest ih => simp [addtagsLoop, grantLoop, ih]
  · intro tags l hpub
    induction l generalizing tags with
    | nil => rfl
    | cons t rest ih =>
      have ht : t ≠ PUBLIC_TAG := fun h => hpub (h ▸ List.mem_cons_self t rest)
      have hrest : PUBLIC_TAG ∉ rest := fun h => hpub (List.mem_cons_of_mem t h)
      simp only [revokeLoop, rmtagsLoop, if_neg ht]
      exact ih _ hrest

/-- Witness for the amended C9 at concrete inputs. -/
theorem C9_witness :
    revokeLoop (insert PUBLIC_TAG {"c"}) ["c"]
      = .ok (rmtagsLoop (insert PUBLIC_TAG {"c"}) ["c"]) :=
  C9_amended_core_agreement.2.2 (insert PUBLIC_TAG {"c"}) ["c"] (by decide)

/-- C10: showtagdef special-cases the reserved tag all only through the
first argument.  When the first requested tag is all, the sentinel line is
printed, no lookup is issued and every remaining argument is ignored; when
the first tag is not all, every processed tag - a later all included - is
looked up in the store and printed as an ordinary line, never as the
sentinel. -/
theorem C10_showtagdef_tests_first_argument (store : TagStore) :
    (∀ rest : List String,
        showtagdefLoop store ALL_TAG (ALL_TAG :: rest) [] []
          = (.ok [ShowOut.allLine], [])) ∧
    (∀ (pf : String → Finset String) (first : String) (args : List String),
        first ≠ ALL_TAG →
        (∀ t ∈ first :: args, store t = .ok (pf t)) →
        showtagdefLoop store first (first :: args) [] []
          = (.ok ((first :: args).map (fun t => ShowOut.line t (pf t))),
             first :: args)) := by
  refine ⟨?_, ?_⟩
  · intro rest
    simp [showtagdefLoop]
  · intro pf first args hfirst hok
    simpa using showtagdefLoop_all_ok store pf first hfirst (first :: args) [] [] hok

/-- Witness for C10 at concrete inputs. -/
theorem C10_witness :
    showtagdefLoop storeConst ALL_TAG (ALL_TAG :: ["x"]) [] []
      = (.ok [ShowOut.allLine], []) ∧
    showtagdefLoop storeConst "t" ("t" :: [ALL_TAG]) [] []
      = (.ok (("t" :: [ALL_TAG]).map
          (fun t => ShowOut.line t ((fun _ => ({"/p/"} : Finset String)) t))),
         "t" :: [ALL_TAG]) :=
  ⟨(C10_showtagdef_tests_first_argument storeConst).1 ["x"],
   (C10_showtagdef_tests_first_argument storeConst).2 (fun _ => {"/p/"}) "t" [ALL_TAG]
     (by decide) (fun t _ => rfl)⟩
